import Mathlib

/-!
Verification of the HexMem spaced-repetition review engine (src/review.py).

Shallow embedding conventions:
* timestamps are real numbers measured in days (matching SQLite's JULIANDAY);
  an elapsed time of `d` days corresponds to `d * 24` hours;
* the two item tables (`events`, `lessons`) are modelled as partial maps
  `ℤ → Option Item` keyed by primary key (SQL rows are keyed uniquely);
* floating point arithmetic is modelled over ℝ (and ℚ for the exact interval
  ladder); the review-log table is an append-only list.
-/

namespace HexMem

/-- Consolidation lifecycle state of a memory item (`active` or `forgotten`). -/
inductive ConsolidationState where
  | active
  | forgotten
deriving DecidableEq, Repr

/-- One reviewable row of the `events` or `lessons` table: the persisted
fields read and written by `review_item` and `process_decay`. -/
structure Item where
  memory_strength : ℝ
  repetition_count : ℕ
  last_reviewed_at : Option ℝ
  created_at : ℝ
  next_review_at : ℝ
  retention_estimate : ℝ
  importance : ℝ
  consolidation_state : ConsolidationState

/-- One appended row of the `review_log` table. -/
structure LogEntry where
  source_table : String
  source_id : ℤ
  retention_before : ℝ
  quality : ℤ
  time_since_last_review_hours : ℝ

/-- The persistent store: the two item tables and the append-only review log. -/
structure DB where
  events : ℤ → Option Item
  lessons : ℤ → Option Item
  review_log : List LogEntry

/-- `INTERVALS` from review.py: the SM-2 ladder of base intervals in hours. -/
def INTERVALS : List ℚ := [0.33, 1, 24, 72, 168, 336, 720, 2160, 4320, 8760]

/-- `calculate_retention` from review.py: Ebbinghaus forgetting curve
`R = exp(-t/S)` with `S = memory_strength * 24` (strength in days). -/
noncomputable def calculate_retention (hours_since_review : ℝ)
    (memory_strength : ℝ) : ℝ :=
  Real.exp (-hours_since_review / (memory_strength * 24))

/-- `get_next_interval` from review.py: SM-2 next review interval in hours. -/
def get_next_interval (repetition_count : ℕ) (quality : ℤ) : ℚ :=
  if quality < 3 then INTERVALS.getD 0 0
  else
    let next_rep := min (repetition_count + 1) (INTERVALS.length - 1)
    let base_interval := INTERVALS.getD next_rep 0
    if quality = 5 then base_interval * 1.3
    else if quality = 3 then base_interval * 0.8
    else base_interval

/-- The strength/repetition update at the heart of `review_item`
(lines 148-158 of review.py), as a function of the stored strength, the
stored repetition count, the review quality and the retention computed at
review time. Returns the pair (new_strength, new_rep_count). -/
noncomputable def review_update (strength : ℝ) (rep_count : ℕ) (quality : ℤ)
    (current_retention : ℝ) : ℝ × ℕ :=
  if 3 ≤ quality then
    let retention_bonus : ℝ := 1.0 + (1.0 - current_retention) * 0.5
    let strength_multiplier : ℝ := 1.1 + ((quality : ℝ) - 3) * 0.1
    (min 10.0 (strength * strength_multiplier * retention_bonus), rep_count + 1)
  else
    (max 0.5 (strength * 0.7), 0)

/-- `review_item` from review.py: one review transaction. Reads the row
(`events` when the table name equals "events", otherwise the `lessons`
table, exactly as the source's if/else does), does nothing when the row is
absent, otherwise updates strength/repetition/schedule and appends one
review-log entry. `now` is the current time in days. -/
noncomputable def review_item (db : DB) (source_table : String) (source_id : ℤ)
    (quality : ℤ) (now : ℝ) : DB :=
  let row := if source_table = "events" then db.events source_id
             else db.lessons source_id
  match row with
  | none => db
  | some item =>
      let last_reviewed : ℝ := item.last_reviewed_at.getD item.created_at
      let hours_since : ℝ := (now - last_reviewed) * 24
      let current_retention : ℝ :=
        calculate_retention hours_since item.memory_strength
      let sr := review_update item.memory_strength item.repetition_count
        quality current_retention
      let next_interval_hours : ℝ := ((get_next_interval sr.2 quality : ℚ) : ℝ)
      let next_review : ℝ := now + next_interval_hours / 24
      let item' : Item := { item with
        memory_strength := sr.1,
        repetition_count := sr.2,
        last_reviewed_at := some now,
        next_review_at := next_review,
        retention_estimate := 1.0 }
      let entry : LogEntry :=
        ⟨source_table, source_id, current_retention, quality, hours_since⟩
      if source_table = "events" then
        { db with
          events := fun j => if j = source_id then some item' else db.events j,
          review_log := db.review_log ++ [entry] }
      else
        { db with
          lessons := fun j => if j = source_id then some item' else db.lessons j,
          review_log := db.review_log ++ [entry] }

/-- The retention expression inlined in `process_decay`'s SQL WHERE clause:
`EXP(-((elapsed_days) * 24) / (memory_strength * 24))`. -/
noncomputable def sweep_retention (elapsed_days : ℝ) (memory_strength : ℝ) : ℝ :=
  Real.exp (-(elapsed_days * 24) / (memory_strength * 24))

/-- The eligibility predicate of `process_decay`'s WHERE clause on one
`events` row at time `now` (days): not yet forgotten, importance below 0.3,
and inlined decay arithmetic below 0.1. -/
def decay_pred (now : ℝ) (item : Item) : Prop :=
  item.consolidation_state ≠ ConsolidationState.forgotten ∧
  item.importance < 0.3 ∧
  sweep_retention (now - item.last_reviewed_at.getD item.created_at)
    item.memory_strength < 0.1

open Classical

/-- `process_decay` from review.py: dry-run only reports and changes
nothing; apply mode marks every `events` row matching the WHERE predicate
as forgotten. Only the `events` table is touched. -/
noncomputable def process_decay (db : DB) (now : ℝ) (dry_run : Bool) : DB :=
  if dry_run then db
  else
    { db with
      events := fun j => (db.events j).map (fun item =>
        if decay_pred now item then
          { item with consolidation_state := ConsolidationState.forgotten }
        else item) }

/-- Python's `str.split(':')` on the reference string, over its character
list: splitting on a single-character separator. -/
def splitColon : List Char → List (List Char)
  | [] => [[]]
  | c :: cs =>
      if c = ':' then [] :: splitColon cs
      else
        match splitColon cs with
        | [] => [[c]]
        | p :: ps => (c :: p) :: ps

/-- Python's `int(str)` digit parsing (unsigned part): `none` models the
`ValueError` raised on a non-numeric id. -/
def digitsToNat? (cs : List Char) : Option ℕ :=
  if cs = [] then none
  else if cs.all Char.isDigit then
    some (cs.foldl (fun acc c => acc * 10 + (c.toNat - 48)) 0)
  else none

/-- Python's `int(str)` with an optional sign. -/
def parseInt? : List Char → Option ℤ
  | '-' :: cs => (digitsToNat? cs).map (fun n => -(n : ℤ))
  | '+' :: cs => (digitsToNat? cs).map (fun n => (n : ℤ))
  | cs => (digitsToNat? cs).map (fun n => (n : ℤ))

/-- The `--review` CLI path of `main`: argparse rejects a quality outside
[0,5] (choices), a reference that does not split on ":" into exactly two
parts is reported and aborts, a non-integer id raises in `int(...)`; any
other reference is passed to `review_item` unchanged (an unknown table name
is routed by `review_item`'s if/else to the `lessons` table). The
reference string is modelled by its character list. -/
noncomputable def run_review_command (db : DB) (ref : List Char)
    (quality : ℤ) (now : ℝ) : DB :=
  if quality < 0 ∨ 5 < quality then db
  else
    match splitColon ref with
    | [t, istr] =>
        match parseInt? istr with
        | some i => review_item db (String.mk t) i quality now
        | none => db
    | _ => db

/-- One core operation: a review transaction or a decay sweep. -/
inductive Op where
  | review (source_table : String) (source_id : ℤ) (quality : ℤ) (now : ℝ)
  | decay (dry_run : Bool) (now : ℝ)

/-- Apply one operation to the store. -/
noncomputable def Op.apply (db : DB) : Op → DB
  | Op.review t i q now => review_item db t i q now
  | Op.decay d now => process_decay db now d

/-- Run a sequence of operations left to right. -/
noncomputable def run_ops (db : DB) : List Op → DB
  | [] => db
  | op :: rest => run_ops (Op.apply db op) rest

/-- The wall-clock instant (days) at which an operation executes. -/
def Op.time : Op → ℝ
  | Op.review _ _ _ now => now
  | Op.decay _ now => now

/-- Operation times are chronological: each operation runs no earlier than
the given clock, and the clock advances along the list (real executions
read `utcnow`, which is nondecreasing). -/
def times_ordered : ℝ → List Op → Prop
  | _, [] => True
  | c, op :: rest => c ≤ op.time ∧ times_ordered op.time rest

/-- The clock instant after running a chronological operation list. -/
def final_clock : ℝ → List Op → ℝ
  | c, [] => c
  | _, op :: rest => final_clock op.time rest

/-- Store sanity at clock instant `c` for one table: every stored strength
lies in [0.5, 10] and no stored timestamp lies in the future. -/
def table_inv (tbl : ℤ → Option Item) (c : ℝ) : Prop :=
  ∀ i item, tbl i = some item →
    0.5 ≤ item.memory_strength ∧ item.memory_strength ≤ 10 ∧
    item.last_reviewed_at.getD item.created_at ≤ c

/-- Store sanity at clock instant `c`: both tables satisfy `table_inv`. -/
def db_inv (db : DB) (c : ℝ) : Prop :=
  table_inv db.events c ∧ table_inv db.lessons c

/-! ### Shared numeric bounds on the exponential -/

lemma exp_half_gt : (1.64872 : ℝ) < Real.exp (1 / 2) := by
  have hsq : Real.exp (1 / 2) * Real.exp (1 / 2) = Real.exp 1 := by
    rw [← Real.exp_add]; norm_num
  have hgt := Real.exp_one_gt_d9
  have hpos := Real.exp_pos (1 / 2 : ℝ)
  nlinarith [hsq, hgt, hpos]

lemma exp_half_lt : Real.exp (1 / 2) < 1.64873 := by
  have hsq : Real.exp (1 / 2) * Real.exp (1 / 2) = Real.exp 1 := by
    rw [← Real.exp_add]; norm_num
  have hlt := Real.exp_one_lt_d9
  have hpos := Real.exp_pos (1 / 2 : ℝ)
  nlinarith [hsq, hlt, hpos]

lemma exp_neg_half_gt : (0.60652 : ℝ) < Real.exp (-(1 / 2)) := by
  have hpos := Real.exp_pos (1 / 2 : ℝ)
  have hinv : Real.exp (1 / 2) * Real.exp (-(1 / 2)) = 1 := by
    rw [← Real.exp_add]; norm_num
  have hub := exp_half_lt
  have hpos2 := Real.exp_pos (-(1 / 2) : ℝ)
  nlinarith [hinv, hub, hpos, hpos2]

lemma exp_neg_half_lt : Real.exp (-(1 / 2)) < 0.60654 := by
  have hpos := Real.exp_pos (1 / 2 : ℝ)
  have hinv : Real.exp (1 / 2) * Real.exp (-(1 / 2)) = 1 := by
    rw [← Real.exp_add]; norm_num
  have hlb := exp_half_gt
  have hpos2 := Real.exp_pos (-(1 / 2) : ℝ)
  nlinarith [hinv, hlb, hpos, hpos2]

lemma retention_24_2_eq : calculate_retention 24 2 = Real.exp (-(1 / 2)) := by
  unfold calculate_retention
  norm_num

lemma exp_neg_ten_lt_tenth : Real.exp (-(10 : ℝ)) < 0.1 := by
  have h10 : (11 : ℝ) ≤ Real.exp 10 := by
    have := Real.add_one_le_exp (10 : ℝ)
    linarith
  have hinv : Real.exp 10 * Real.exp (-(10 : ℝ)) = 1 := by
    rw [← Real.exp_add]; norm_num
  have hpos := Real.exp_pos (-(10 : ℝ))
  nlinarith [h10, hinv, hpos]

/-! ### Claims -/

/-- Claim C9: the raw decay arithmetic inlined in the sweep's eligibility
query computes the same retention value as the retention model: for every
elapsed time in days and every strength, `EXP(-((elapsed_days)*24) /
(memory_strength*24))` equals `calculate_retention` at the same elapsed
hours and strength, and the sweep predicate is exactly the retention-model
predicate compared against the 0.1 threshold. -/
theorem sweep_retention_refines :
    (∀ d s : ℝ, sweep_retention d s = calculate_retention (d * 24) s)
    ∧ (∀ (now : ℝ) (item : Item), decay_pred now item ↔
        (item.consolidation_state ≠ ConsolidationState.forgotten ∧
         item.importance < 0.3 ∧
         calculate_retention
           ((now - item.last_reviewed_at.getD item.created_at) * 24)
           item.memory_strength < 0.1)) :=
  ⟨fun _ _ => rfl, fun _ _ => Iff.rfl⟩

/-- Claim C2: with quality below 3, `get_next_interval` returns the first
rung (0.33 h) of the ladder regardless of the repetition count; otherwise
it returns the rung at index `min(repetition_count + 1, 9)` scaled by 1.3
at quality 5, by 0.8 at quality 3, and by 1.0 at quality 4; in particular
`get_next_interval 0 4 = 1` and `get_next_interval 5 5 = 936`. -/
theorem next_interval_spec (r : ℕ) (q : ℤ) (h0 : 0 ≤ q) (h5 : q ≤ 5) :
    ((q < 3 → get_next_interval r q = 0.33)
    ∧ (3 ≤ q → get_next_interval r q =
        INTERVALS.getD (min (r + 1) 9) 0 *
          (if q = 5 then 1.3 else if q = 3 then 0.8 else 1)))
    ∧ get_next_interval 0 4 = 1 ∧ get_next_interval 5 5 = 936 := by
  refine ⟨⟨fun hq => ?_, fun hq => ?_⟩, by norm_num [get_next_interval, INTERVALS],
    by norm_num [get_next_interval, INTERVALS]⟩
  · unfold get_next_interval
    rw [if_pos hq]
    norm_num [INTERVALS]
  · interval_cases q <;> norm_num [get_next_interval, INTERVALS]

/-- Witness for `next_interval_spec` at concrete inputs. -/
theorem next_interval_spec_witness :
    get_next_interval 7 2 = 0.33 ∧ get_next_interval 2 5 = 72 * 1.3 := by
  constructor
  · exact (next_interval_spec 7 2 (by decide) (by decide)).1.1 (by decide)
  · have h := (next_interval_spec 2 5 (by decide) (by decide)).1.2 (by decide)
    rw [h]; norm_num [INTERVALS]

/-- Claim C3 (counterexample): `calculate_retention` is not strictly
increasing in strength on the whole claimed domain: at zero elapsed hours
it is constantly 1, so raising strength from 1 to 2 does not increase it. -/
theorem retention_constant_at_zero_elapsed :
    calculate_retention 0 1 = 1 ∧ calculate_retention 0 2 = 1 ∧
    ¬ calculate_retention 0 1 < calculate_retention 0 2 := by
  have h1 : calculate_retention 0 1 = 1 := by simp [calculate_retention]
  have h2 : calculate_retention 0 2 = 1 := by simp [calculate_retention]
  exact ⟨h1, h2, by rw [h1, h2]; exact lt_irrefl 1⟩

/-- Claim C3 (amended): `calculate_retention h s = exp(-h / (s*24))`, it
equals 1 at zero elapsed time, it is strictly decreasing in elapsed time
(for positive strength), it is strictly increasing in strength for
strictly positive elapsed time (at zero elapsed time it is constantly 1),
and `calculate_retention 24 2` is within 1e-4 of 0.6065. -/
theorem retention_model_spec :
    (∀ h s : ℝ, calculate_retention h s = Real.exp (-h / (s * 24)))
    ∧ (∀ s : ℝ, calculate_retention 0 s = 1)
    ∧ (∀ (s h₁ h₂ : ℝ), 0 < s → h₁ < h₂ →
        calculate_retention h₂ s < calculate_retention h₁ s)
    ∧ (∀ (h s₁ s₂ : ℝ), 0 < h → 0 < s₁ → s₁ < s₂ →
        calculate_retention h s₁ < calculate_retention h s₂)
    ∧ |calculate_retention 24 2 - 0.6065| < 1e-4 := by
  refine ⟨fun _ _ => rfl, fun s => by simp [calculate_retention], ?_, ?_, ?_⟩
  · intro s h₁ h₂ hs hlt
    unfold calculate_retention
    apply Real.exp_lt_exp.2
    have h24 : (0 : ℝ) < s * 24 := by positivity
    exact (div_lt_div_iff_of_pos_right h24).2 (neg_lt_neg hlt)
  · intro h s₁ s₂ hh hs₁ hlt
    unfold calculate_retention
    apply Real.exp_lt_exp.2
    have h1 : (0 : ℝ) < s₁ * 24 := by positivity
    have h2 : s₁ * 24 < s₂ * 24 := by nlinarith
    rw [neg_div, neg_div, neg_lt_neg_iff]
    exact div_lt_div_of_pos_left hh h1 h2
  · rw [retention_24_2_eq, abs_lt]
    constructor
    · nlinarith [exp_neg_half_gt]
    · nlinarith [exp_neg_half_lt]

/-! ### Effect of one review transaction on the store -/

lemma review_update_succ (s : ℝ) (r : ℕ) (q : ℤ) (R : ℝ) (hq : 3 ≤ q) :
    review_update s r q R =
      (min 10.0 (s * (1.1 + ((q : ℝ) - 3) * 0.1) * (1.0 + (1.0 - R) * 0.5)),
       r + 1) := by
  unfold review_update
  rw [if_pos hq]

lemma review_update_fail (s : ℝ) (r : ℕ) (q : ℤ) (R : ℝ) (hq : q < 3) :
    review_update s r q R = (max 0.5 (s * 0.7), 0) := by
  unfold review_update
  rw [if_neg (not_le.2 hq)]

/-- The reviewed row after `review_item` finds it: all written fields. -/
lemma review_item_row (db : DB) (t : String) (i q : ℤ) (now : ℝ) (item : Item)
    (hit : (if t = "events" then db.events i else db.lessons i) = some item) :
    (if t = "events" then (review_item db t i q now).events i
     else (review_item db t i q now).lessons i) =
      some { item with
        memory_strength := (review_update item.memory_strength
          item.repetition_count q (calculate_retention
            ((now - item.last_reviewed_at.getD item.created_at) * 24)
            item.memory_strength)).1,
        repetition_count := (review_update item.memory_strength
          item.repetition_count q (calculate_retention
            ((now - item.last_reviewed_at.getD item.created_at) * 24)
            item.memory_strength)).2,
        last_reviewed_at := some now,
        next_review_at := now + ((get_next_interval (review_update
          item.memory_strength item.repetition_count q (calculate_retention
            ((now - item.last_reviewed_at.getD item.created_at) * 24)
            item.memory_strength)).2 q : ℚ) : ℝ) / 24,
        retention_estimate := 1.0 } := by
  by_cases ht : t = "events"
  · rw [if_pos ht] at hit ⊢
    unfold review_item
    rw [ht, if_pos rfl, hit]
    simp
  · rw [if_neg ht] at hit ⊢
    unfold review_item
    rw [if_neg ht, hit]
    simp [ht]

/-- The log row appended by `review_item` when it finds the item. -/
lemma review_item_log (db : DB) (t : String) (i q : ℤ) (now : ℝ) (item : Item)
    (hit : (if t = "events" then db.events i else db.lessons i) = some item) :
    (review_item db t i q now).review_log = db.review_log ++
      [⟨t, i, calculate_retention
          ((now - item.last_reviewed_at.getD item.created_at) * 24)
          item.memory_strength, q,
        (now - item.last_reviewed_at.getD item.created_at) * 24⟩] := by
  by_cases ht : t = "events"
  · rw [if_pos ht] at hit
    unfold review_item
    rw [ht, if_pos rfl, hit]
    simp
  · rw [if_neg ht] at hit
    unfold review_item
    rw [if_neg ht, hit]
    simp [ht]

/-- `review_item` leaves the store untouched when the row is absent. -/
lemma review_item_notfound (db : DB) (t : String) (i q : ℤ) (now : ℝ)
    (hmiss : (if t = "events" then db.events i else db.lessons i) = none) :
    review_item db t i q now = db := by
  unfold review_item
  rw [hmiss]

/-- A fresh item with strength 2.0, repetition count 2, last reviewed at
time 0 (days): the round-trip example of the specification. -/
def item24 : Item :=
  { memory_strength := 2
    repetition_count := 2
    last_reviewed_at := some 0
    created_at := 0
    next_review_at := 0
    retention_estimate := 1
    importance := 0.5
    consolidation_state := ConsolidationState.active }

/-- A store holding only `item24` under `events` id 1, with an empty log. -/
def db24 : DB :=
  { events := fun j => if j = 1 then some item24 else none
    lessons := fun _ => none
    review_log := [] }

/-- Claim C1: for every item with strength `s`, repetition count `r` and
retention `R` computed at review time, a review with quality at least 3
stores strength `min(10.0, s * (1.1 + (quality - 3) * 0.1) *
(1 + (1 - R) * 0.5))` and repetition count `r + 1`; a review with quality
below 3 stores strength `max(0.5, s * 0.7)` and repetition count 0. In
particular for strength 2.0, repetition count 2 and 24 hours since review,
quality 5 gives retention within 1e-4 of 0.6065, new strength within 2e-3
of 3.11, and repetition count 3. -/
theorem review_strength_formula :
    (∀ (db : DB) (t : String) (i q : ℤ) (now : ℝ) (item : Item),
      (if t = "events" then db.events i else db.lessons i) = some item →
      ∃ item',
        (if t = "events" then (review_item db t i q now).events i
         else (review_item db t i q now).lessons i) = some item' ∧
        (3 ≤ q →
          item'.memory_strength =
            min 10.0 (item.memory_strength * (1.1 + ((q : ℝ) - 3) * 0.1) *
              (1.0 + (1.0 - calculate_retention
                ((now - item.last_reviewed_at.getD item.created_at) * 24)
                item.memory_strength) * 0.5)) ∧
          item'.repetition_count = item.repetition_count + 1) ∧
        (q < 3 →
          item'.memory_strength = max 0.5 (item.memory_strength * 0.7) ∧
          item'.repetition_count = 0)) ∧
    (∃ item', (review_item db24 "events" 1 5 1).events 1 = some item' ∧
      |calculate_retention 24 2 - 0.6065| < 1e-4 ∧
      |item'.memory_strength - 3.11| < 2e-3 ∧
      item'.repetition_count = 3) := by
  have hgen : ∀ (db : DB) (t : String) (i q : ℤ) (now : ℝ) (item : Item),
      (if t = "events" then db.events i else db.lessons i) = some item →
      ∃ item',
        (if t = "events" then (review_item db t i q now).events i
         else (review_item db t i q now).lessons i) = some item' ∧
        (3 ≤ q →
          item'.memory_strength =
            min 10.0 (item.memory_strength * (1.1 + ((q : ℝ) - 3) * 0.1) *
              (1.0 + (1.0 - calculate_retention
                ((now - item.last_reviewed_at.getD item.created_at) * 24)
                item.memory_strength) * 0.5)) ∧
          item'.repetition_count = item.repetition_count + 1) ∧
        (q < 3 →
          item'.memory_strength = max 0.5 (item.memory_strength * 0.7) ∧
          item'.repetition_count = 0) := by
    intro db t i q now item hit
    refine ⟨_, review_item_row db t i q now item hit, fun hq => ?_, fun hq => ?_⟩
    · simp only [review_update_succ item.memory_strength item.repetition_count q
        (calculate_retention
          ((now - item.last_reviewed_at.getD item.created_at) * 24)
          item.memory_strength) hq]
      simp
    · simp only [review_update_fail item.memory_strength item.repetition_count q
        (calculate_retention
          ((now - item.last_reviewed_at.getD item.created_at) * 24)
          item.memory_strength) hq]
      simp
  refine ⟨hgen, ?_⟩
  obtain ⟨item', hrow, hsucc, _⟩ :=
    hgen db24 "events" 1 5 1 item24 (by simp [db24])
  obtain ⟨hstrength, hrep⟩ := hsucc (by norm_num)
  have hx1 := exp_neg_half_gt
  have hx2 := exp_neg_half_lt
  have hstrength' : item'.memory_strength =
      min 10.0 ((2 : ℝ) * (1.1 + ((5 : ℝ) - 3) * 0.1) *
        (1.0 + (1.0 - Real.exp (-(1 / 2))) * 0.5)) := by
    rw [hstrength, ← retention_24_2_eq]
    norm_num [item24]
  have hrep' : item'.repetition_count = 3 := by
    rw [hrep]
    rfl
  have hmin : min (10.0 : ℝ) ((2 : ℝ) * (1.1 + ((5 : ℝ) - 3) * 0.1) *
      (1.0 + (1.0 - Real.exp (-(1 / 2))) * 0.5))
      = (2 : ℝ) * (1.1 + ((5 : ℝ) - 3) * 0.1) *
        (1.0 + (1.0 - Real.exp (-(1 / 2))) * 0.5) :=
    min_eq_right (by nlinarith)
  refine ⟨item', by simpa using hrow, ?_, ?_, hrep'⟩
  · rw [retention_24_2_eq, abs_lt]
    constructor
    · nlinarith
    · nlinarith
  · rw [hstrength', hmin, abs_lt]
    constructor
    · nlinarith
    · nlinarith

/-- Witness for `review_strength_formula`: its universal part applied to
the concrete store `db24` at quality 1 (a failed review). -/
theorem review_strength_formula_witness :
    ∃ item', (review_item db24 "events" 1 1 1).events 1 = some item' ∧
      item'.memory_strength = max 0.5 (item24.memory_strength * 0.7) ∧
      item'.repetition_count = 0 := by
  obtain ⟨item', hrow, _, hfail⟩ :=
    review_strength_formula.1 db24 "events" 1 1 1 item24 (by simp [db24])
  obtain ⟨h1, h2⟩ := hfail (by norm_num)
  exact ⟨item', by simpa using hrow, h1, h2⟩

/-! ### Range facts about the retention value and the strength update -/

lemma retention_pos (h s : ℝ) : 0 < calculate_retention h s :=
  Real.exp_pos _

lemma retention_le_one (h s : ℝ) (hh : 0 ≤ h) (hs : 0 < s) :
    calculate_retention h s ≤ 1 := by
  unfold calculate_retention
  rw [Real.exp_le_one_iff, neg_div]
  have h24 : (0 : ℝ) ≤ s * 24 := by positivity
  exact neg_nonpos.2 (div_nonneg hh h24)

/-- With positive strength, retention at most 1 and quality at least 3,
the unclamped success product is at least the stored strength. -/
lemma strength_product_ge (s R : ℝ) (q : ℤ) (h0 : 0 < s) (hR : R ≤ 1)
    (hq : 3 ≤ q) :
    s ≤ s * (1.1 + ((q : ℝ) - 3) * 0.1) * (1.0 + (1.0 - R) * 0.5) := by
  have hq3 : (3 : ℝ) ≤ (q : ℝ) := by exact_mod_cast hq
  have hmult : (1 : ℝ) ≤ 1.1 + ((q : ℝ) - 3) * 0.1 := by nlinarith
  have hbonus : (1 : ℝ) ≤ 1.0 + (1.0 - R) * 0.5 := by nlinarith
  calc s = s * 1 * 1 := by ring
    _ ≤ s * (1.1 + ((q : ℝ) - 3) * 0.1) * (1.0 + (1.0 - R) * 0.5) := by
        refine mul_le_mul ?_ hbonus (by norm_num) ?_
        · exact mul_le_mul le_rfl hmult (by norm_num) h0.le
        · positivity

/-- The strength written by one review stays inside [0.5, 10] whenever the
stored strength was inside [0.5, 10] and the retention computed at review
time is at most 1. -/
lemma review_update_bounds (s R : ℝ) (r : ℕ) (q : ℤ)
    (h05 : 0.5 ≤ s) (h10 : s ≤ 10) (hR : R ≤ 1) :
    0.5 ≤ (review_update s r q R).1 ∧ (review_update s r q R).1 ≤ 10 := by
  by_cases hq : 3 ≤ q
  · rw [review_update_succ s r q R hq]
    have hkey := strength_product_ge s R q (by linarith) hR hq
    constructor
    · exact le_min (by norm_num) (by linarith)
    · exact le_trans (min_le_left _ _) (by norm_num)
  · rw [review_update_fail s r q R (not_le.1 hq)]
    constructor
    · exact le_max_left _ _
    · exact max_le (by norm_num) (by nlinarith)

/-- A successful review never lowers the stored strength, and a failed
review never raises it, given strength in [0.5, 10] and retention at most
1. -/
lemma review_update_mono (s R : ℝ) (r : ℕ) (q : ℤ)
    (h05 : 0.5 ≤ s) (h10 : s ≤ 10) (hR : R ≤ 1) :
    (3 ≤ q → s ≤ (review_update s r q R).1) ∧
    (q < 3 → (review_update s r q R).1 ≤ s) := by
  constructor
  · intro hq
    rw [review_update_succ s r q R hq]
    have hkey := strength_product_ge s R q (by linarith) hR hq
    exact le_min (by linarith) hkey
  · intro hq
    rw [review_update_fail s r q R hq]
    exact max_le (by linarith) (by nlinarith)

/-- Witness for `retention_model_spec` at concrete inputs. -/
theorem retention_model_spec_witness :
    calculate_retention 48 2 < calculate_retention 24 2 ∧
    calculate_retention 24 2 < calculate_retention 24 4 := by
  constructor
  · exact retention_model_spec.2.2.1 2 24 48 (by norm_num) (by norm_num)
  · exact retention_model_spec.2.2.2.1 24 2 4 (by norm_num) (by norm_num)
      (by norm_num)

/-! ### Preservation of the store invariant -/

lemma table_inv_mono (tbl : ℤ → Option Item) (c c' : ℝ) (h : table_inv tbl c)
    (hcc : c ≤ c') : table_inv tbl c' := by
  intro i item hit
  obtain ⟨a, b, d⟩ := h i item hit
  exact ⟨a, b, le_trans d hcc⟩

lemma db_inv_mono (db : DB) (c c' : ℝ) (h : db_inv db c) (hcc : c ≤ c') :
    db_inv db c' :=
  ⟨table_inv_mono _ _ _ h.1 hcc, table_inv_mono _ _ _ h.2 hcc⟩

lemma table_inv_update (tbl : ℤ → Option Item) (c now : ℝ) (i : ℤ)
    (item' : Item) (hinv : table_inv tbl c) (hc : c ≤ now)
    (hb : 0.5 ≤ item'.memory_strength ∧ item'.memory_strength ≤ 10 ∧
      item'.last_reviewed_at.getD item'.created_at ≤ now) :
    table_inv (fun j => if j = i then some item' else tbl j) now := by
  intro j it hj
  dsimp only at hj
  by_cases hji : j = i
  · rw [if_pos hji] at hj
    injection hj with hj'
    rw [← hj']
    exact hb
  · rw [if_neg hji] at hj
    obtain ⟨a, b, d⟩ := hinv j it hj
    exact ⟨a, b, le_trans d hc⟩

/-- One review transaction preserves the store invariant, moving the clock
from `c` to the review instant `now`. -/
lemma review_preserves_inv (db : DB) (c : ℝ) (t : String) (i q : ℤ)
    (now : ℝ) (hinv : db_inv db c) (hc : c ≤ now) :
    db_inv (review_item db t i q now) now := by
  rcases hrow : (if t = "events" then db.events i else db.lessons i)
    with _ | item
  · rw [review_item_notfound db t i q now hrow]
    exact db_inv_mono db c now hinv hc
  · have hitem : 0.5 ≤ item.memory_strength ∧ item.memory_strength ≤ 10 ∧
        item.last_reviewed_at.getD item.created_at ≤ c := by
      by_cases ht : t = "events"
      · exact hinv.1 i item (by rwa [if_pos ht] at hrow)
      · exact hinv.2 i item (by rwa [if_neg ht] at hrow)
    have hR : calculate_retention
        ((now - item.last_reviewed_at.getD item.created_at) * 24)
        item.memory_strength ≤ 1 :=
      retention_le_one _ _ (by nlinarith [hitem.2.2]) (by linarith [hitem.1])
    have hub := review_update_bounds item.memory_strength
      (calculate_retention
        ((now - item.last_reviewed_at.getD item.created_at) * 24)
        item.memory_strength)
      item.repetition_count q hitem.1 hitem.2.1 hR
    by_cases ht : t = "events"
    · rw [if_pos ht] at hrow
      rw [ht]
      unfold review_item
      rw [if_pos rfl, hrow]
      dsimp only
      rw [if_pos rfl]
      refine ⟨table_inv_update db.events c now i _ hinv.1 hc ?_,
        table_inv_mono db.lessons c now hinv.2 hc⟩
      exact ⟨hub.1, hub.2, by simp⟩
    · rw [if_neg ht] at hrow
      unfold review_item
      rw [if_neg ht, hrow]
      dsimp only
      rw [if_neg ht]
      refine ⟨table_inv_mono db.events c now hinv.1 hc,
        table_inv_update db.lessons c now i _ hinv.2 hc ?_⟩
      exact ⟨hub.1, hub.2, by simp⟩

/-- A decay sweep (either mode) preserves the store invariant: it only
ever touches `consolidation_state`. -/
lemma decay_preserves_inv (db : DB) (c now : ℝ) (dry : Bool)
    (hinv : db_inv db c) (hc : c ≤ now) :
    db_inv (process_decay db now dry) now := by
  cases dry
  · unfold process_decay
    simp only [Bool.false_eq_true, if_false]
    refine ⟨?_, table_inv_mono db.lessons c now hinv.2 hc⟩
    intro j it hj
    simp only [Option.map_eq_some'] at hj
    obtain ⟨it0, hit0, hf⟩ := hj
    obtain ⟨a, b, d⟩ := hinv.1 j it0 hit0
    by_cases hp : decay_pred now it0
    · rw [if_pos hp] at hf
      rw [← hf]
      exact ⟨a, b, le_trans d hc⟩
    · rw [if_neg hp] at hf
      rw [← hf]
      exact ⟨a, b, le_trans d hc⟩
  · unfold process_decay
    simp only [if_true]
    exact db_inv_mono db c now hinv hc

/-- Running a chronological operation list preserves the store invariant. -/
lemma run_ops_preserves_inv (ops : List Op) (db : DB) (c : ℝ)
    (hinv : db_inv db c) (hord : times_ordered c ops) :
    db_inv (run_ops db ops) (final_clock c ops) := by
  induction ops generalizing db c with
  | nil => exact hinv
  | cons op rest ih =>
      obtain ⟨hco, hrest⟩ := hord
      refine ih (Op.apply db op) op.time ?_ hrest
      cases op with
      | review t i q now => exact review_preserves_inv db c t i q now hinv hco
      | decay d now => exact decay_preserves_inv db c now d hinv hco

/-- Claim C5: for every store whose strengths start in [0.5, 10] (with no
stored timestamp in the future), after any chronological sequence of
review and sweep operations, every stored strength is still in [0.5, 10]. -/
theorem strength_stays_clamped (db : DB) (c : ℝ) (ops : List Op)
    (hinv : db_inv db c) (hord : times_ordered c ops) :
    ∀ (i : ℤ) (item : Item),
      ((run_ops db ops).events i = some item ∨
        (run_ops db ops).lessons i = some item) →
      0.5 ≤ item.memory_strength ∧ item.memory_strength ≤ 10 := by
  have h := run_ops_preserves_inv ops db c hinv hord
  intro i item hmem
  rcases hmem with h1 | h1
  · obtain ⟨a, b, _⟩ := h.1 i item h1
    exact ⟨a, b⟩
  · obtain ⟨a, b, _⟩ := h.2 i item h1
    exact ⟨a, b⟩

/-- Witness for `strength_stays_clamped`: the store `db24` run through a
dry-run sweep at time 1. -/
theorem strength_stays_clamped_witness :
    0.5 ≤ item24.memory_strength ∧ item24.memory_strength ≤ 10 := by
  refine strength_stays_clamped db24 0 [Op.decay true 1] ?_ ?_ 1 item24
    (Or.inl ?_)
  · constructor
    · intro i it hit
      by_cases hi : i = 1
      · subst hi
        simp only [db24, if_pos rfl] at hit
        injection hit with h
        rw [← h]
        norm_num [item24]
      · simp [db24, hi] at hit
    · intro i it hit
      simp [db24] at hit
  · exact ⟨by norm_num [Op.time], trivial⟩
  · simp [run_ops, Op.apply, process_decay, db24]

/-- Claim C10: with stored strength in [0.5, 10] and the stored
last-review/creation time not in the future, a review with quality at
least 3 never decreases the stored strength and a review with quality
below 3 never increases it. -/
theorem review_strength_monotone (db : DB) (t : String) (i q : ℤ)
    (now : ℝ) (item : Item)
    (hit : (if t = "events" then db.events i else db.lessons i) = some item)
    (h05 : 0.5 ≤ item.memory_strength) (h10 : item.memory_strength ≤ 10)
    (hts : item.last_reviewed_at.getD item.created_at ≤ now) :
    ∃ item',
      (if t = "events" then (review_item db t i q now).events i
       else (review_item db t i q now).lessons i) = some item' ∧
      (3 ≤ q → item.memory_strength ≤ item'.memory_strength) ∧
      (q < 3 → item'.memory_strength ≤ item.memory_strength) := by
  have hR : calculate_retention
      ((now - item.last_reviewed_at.getD item.created_at) * 24)
      item.memory_strength ≤ 1 :=
    retention_le_one _ _ (by nlinarith) (by linarith)
  have hm := review_update_mono item.memory_strength
    (calculate_retention
      ((now - item.last_reviewed_at.getD item.created_at) * 24)
      item.memory_strength)
    item.repetition_count q h05 h10 hR
  exact ⟨_, review_item_row db t i q now item hit, hm.1, hm.2⟩

/-- Witness for `review_strength_monotone`: quality 4 on `db24`'s item. -/
theorem review_strength_monotone_witness :
    ∃ item', (review_item db24 "events" 1 4 1).events 1 = some item' ∧
      item24.memory_strength ≤ item'.memory_strength := by
  obtain ⟨item', hrow, hup, _⟩ :=
    review_strength_monotone db24 "events" 1 4 1 item24 (by simp [db24])
      (by norm_num [item24]) (by norm_num [item24]) (by norm_num [item24])
  exact ⟨item', by simpa using hrow, hup (by norm_num)⟩

/-! ### Consolidation-state transitions -/

lemma state_not_forgotten (s : ConsolidationState)
    (h : s ≠ ConsolidationState.forgotten) : s = ConsolidationState.active := by
  cases s
  · rfl
  · exact absurd rfl h

/-- A review transaction never changes any item's consolidation state. -/
lemma review_state_eq (db : DB) (t : String) (i q : ℤ) (now : ℝ) (j : ℤ) :
    ((review_item db t i q now).events j).map Item.consolidation_state
      = (db.events j).map Item.consolidation_state ∧
    ((review_item db t i q now).lessons j).map Item.consolidation_state
      = (db.lessons j).map Item.consolidation_state := by
  rcases hrow : (if t = "events" then db.events i else db.lessons i)
    with _ | item
  · rw [review_item_notfound db t i q now hrow]
    exact ⟨rfl, rfl⟩
  · by_cases ht : t = "events"
    · rw [if_pos ht] at hrow
      rw [ht]
      unfold review_item
      rw [if_pos rfl, hrow]
      dsimp only
      rw [if_pos rfl]
      refine ⟨?_, rfl⟩
      dsimp only
      by_cases hji : j = i
      · subst hji
        rw [if_pos rfl, hrow]
        rfl
      · rw [if_neg hji]
    · rw [if_neg ht] at hrow
      unfold review_item
      rw [if_neg ht, hrow]
      dsimp only
      rw [if_neg ht]
      refine ⟨rfl, ?_⟩
      dsimp only
      by_cases hji : j = i
      · subst hji
        rw [if_pos rfl, hrow]
        rfl
      · rw [if_neg hji]

/-- Effect of an apply-mode sweep on one `events` row's state: either
unchanged, or an active-to-forgotten transition. -/
lemma decay_apply_state (db : DB) (now : ℝ) (j : ℤ) (item : Item)
    (hit : db.events j = some item) :
    ∃ item', (process_decay db now false).events j = some item' ∧
      (item'.consolidation_state = item.consolidation_state ∨
        (item.consolidation_state = ConsolidationState.active ∧
         item'.consolidation_state = ConsolidationState.forgotten)) := by
  unfold process_decay
  simp only [Bool.false_eq_true, if_false]
  rw [hit]
  simp only [Option.map_some']
  by_cases hp : decay_pred now item
  · rw [if_pos hp]
    exact ⟨_, rfl, Or.inr ⟨state_not_forgotten _ hp.1, rfl⟩⟩
  · rw [if_neg hp]
    exact ⟨_, rfl, Or.inl rfl⟩

/-- A forgotten item stays forgotten across one operation, in both tables. -/
lemma op_forgotten_stays (db : DB) (op : Op) (j : ℤ) :
    ((db.events j).map Item.consolidation_state
        = some ConsolidationState.forgotten →
      ((Op.apply db op).events j).map Item.consolidation_state
        = some ConsolidationState.forgotten) ∧
    ((db.lessons j).map Item.consolidation_state
        = some ConsolidationState.forgotten →
      ((Op.apply db op).lessons j).map Item.consolidation_state
        = some ConsolidationState.forgotten) := by
  cases op with
  | review t i q now =>
      have h := review_state_eq db t i q now j
      exact ⟨fun hf => by rw [Op.apply, h.1]; exact hf,
        fun hf => by rw [Op.apply, h.2]; exact hf⟩
  | decay d now =>
      cases d
      · constructor
        · intro hf
          rcases hit : db.events j with _ | item
          · rw [hit] at hf
            exact absurd hf (by simp)
          · rw [hit] at hf
            simp only [Option.map_some'] at hf
            injection hf with hf'
            obtain ⟨item', hrow, hcase⟩ := decay_apply_state db now j item hit
            rw [Op.apply, hrow]
            simp only [Option.map_some']
            rcases hcase with hsame | ⟨hact, _⟩
            · rw [hsame, hf']
            · rw [hact] at hf'
              exact absurd hf' (by simp)
        · intro hf
          rw [Op.apply]
          unfold process_decay
          simp only [Bool.false_eq_true, if_false]
          exact hf
      · exact ⟨fun hf => hf, fun hf => hf⟩

/-- A forgotten item stays forgotten across any operation sequence. -/
lemma run_forgotten_stays (ops : List Op) (db : DB) (j : ℤ) :
    ((db.events j).map Item.consolidation_state
        = some ConsolidationState.forgotten →
      ((run_ops db ops).events j).map Item.consolidation_state
        = some ConsolidationState.forgotten) ∧
    ((db.lessons j).map Item.consolidation_state
        = some ConsolidationState.forgotten →
      ((run_ops db ops).lessons j).map Item.consolidation_state
        = some ConsolidationState.forgotten) := by
  induction ops generalizing db with
  | nil => exact ⟨fun hf => hf, fun hf => hf⟩
  | cons op rest ih =>
      have hop := op_forgotten_stays db op j
      have hrest := ih (Op.apply db op)
      exact ⟨fun hf => hrest.1 (hop.1 hf), fun hf => hrest.2 (hop.2 hf)⟩

/-- Claim C6: over any sequence of core operations an item's consolidation
state only ever moves active to forgotten and never back: a review never
changes any consolidation state, a dry-run sweep changes nothing, an
apply-mode sweep either leaves a row's state unchanged or moves it from
active to forgotten, and a forgotten item stays forgotten under every
operation sequence. -/
theorem consolidation_transitions (db : DB) :
    (∀ (t : String) (i q : ℤ) (now : ℝ) (j : ℤ),
      ((review_item db t i q now).events j).map Item.consolidation_state
        = (db.events j).map Item.consolidation_state ∧
      ((review_item db t i q now).lessons j).map Item.consolidation_state
        = (db.lessons j).map Item.consolidation_state)
    ∧ (∀ now : ℝ, process_decay db now true = db)
    ∧ (∀ (now : ℝ) (j : ℤ) (item : Item), db.events j = some item →
        ∃ item', (process_decay db now false).events j = some item' ∧
          (item'.consolidation_state = item.consolidation_state ∨
            (item.consolidation_state = ConsolidationState.active ∧
             item'.consolidation_state = ConsolidationState.forgotten)))
    ∧ (∀ now : ℝ, (process_decay db now false).lessons = db.lessons)
    ∧ (∀ (ops : List Op) (j : ℤ),
        ((db.events j).map Item.consolidation_state
            = some ConsolidationState.forgotten →
          ((run_ops db ops).events j).map Item.consolidation_state
            = some ConsolidationState.forgotten) ∧
        ((db.lessons j).map Item.consolidation_state
            = some ConsolidationState.forgotten →
          ((run_ops db ops).lessons j).map Item.consolidation_state
            = some ConsolidationState.forgotten)) := by
  refine ⟨fun t i q now j => review_state_eq db t i q now j,
    fun now => rfl,
    fun now j item hit => decay_apply_state db now j item hit,
    fun now => rfl,
    fun ops j => run_forgotten_stays ops db j⟩

/-- An item that is already forgotten. -/
def itemF : Item :=
  { memory_strength := 1
    repetition_count := 0
    last_reviewed_at := some 0
    created_at := 0
    next_review_at := 0
    retention_estimate := 1
    importance := 0.1
    consolidation_state := ConsolidationState.forgotten }

/-- A store holding a forgotten item under `events` id 1. -/
def dbF : DB :=
  { events := fun j => if j = 1 then some itemF else none
    lessons := fun _ => none
    review_log := [] }

/-- Witness for `consolidation_transitions`: running a review and an
apply-mode sweep over a forgotten item leaves it forgotten. -/
theorem consolidation_transitions_witness :
    ((run_ops dbF [Op.review "events" 1 4 2, Op.decay false 3]).events 1).map
      Item.consolidation_state = some ConsolidationState.forgotten := by
  refine ((consolidation_transitions dbF).2.2.2.2
    [Op.review "events" 1 4 2, Op.decay false 3] 1).1 ?_
  simp [dbF, itemF]

/-! ### The decay sweep -/

/-- Claim C4 (amended): the sweep's behaviour per mode. Dry-run changes
nothing at all; apply mode re-evaluates the WHERE predicate per row and
marks exactly the matching `events` rows forgotten, touching nothing else;
the `lessons` table and the review log are never touched. -/
theorem decay_sweep_spec (db : DB) (now : ℝ) :
    process_decay db now true = db
    ∧ (process_decay db now false).lessons = db.lessons
    ∧ (process_decay db now false).review_log = db.review_log
    ∧ (∀ (i : ℤ) (item : Item), db.events i = some item →
        (decay_pred now item →
          (process_decay db now false).events i =
            some { item with
              consolidation_state := ConsolidationState.forgotten }) ∧
        (¬ decay_pred now item →
          (process_decay db now false).events i = some item))
    ∧ (∀ i : ℤ, db.events i = none →
        (process_decay db now false).events i = none) := by
  refine ⟨rfl, rfl, rfl, fun i item hit => ⟨fun hp => ?_, fun hp => ?_⟩,
    fun i hmiss => ?_⟩
  · unfold process_decay
    simp only [Bool.false_eq_true, if_false]
    rw [hit]
    simp only [Option.map_some']
    rw [if_pos hp]
  · unfold process_decay
    simp only [Bool.false_eq_true, if_false]
    rw [hit]
    simp only [Option.map_some']
    rw [if_neg hp]
  · unfold process_decay
    simp only [Bool.false_eq_true, if_false]
    rw [hmiss]
    rfl

/-- An active, unimportant, long-unreviewed lessons item: it satisfies the
sweep's eligibility predicate at time 10 (days). -/
def itemL : Item :=
  { memory_strength := 1
    repetition_count := 0
    last_reviewed_at := some 0
    created_at := 0
    next_review_at := 0
    retention_estimate := 1
    importance := 0.1
    consolidation_state := ConsolidationState.active }

/-- A store whose only item is `itemL`, stored in the `lessons` table. -/
def dbL : DB :=
  { events := fun _ => none
    lessons := fun j => if j = 1 then some itemL else none
    review_log := [] }

/-- Claim C4 (counterexample): the sweep does not run over the whole item
set — a `lessons` item that satisfies the eligibility predicate (active,
importance 0.1 < 0.3, retention exp(-10) < 0.1 at time 10) is left
untouched by an apply-mode sweep, because `process_decay` only queries and
updates the `events` table. -/
theorem decay_skips_lessons_table :
    decay_pred 10 itemL ∧
    (process_decay dbL 10 false).lessons 1 = some itemL ∧
    itemL.consolidation_state = ConsolidationState.active := by
  refine ⟨⟨by simp [itemL], by norm_num [itemL], ?_⟩, ?_, rfl⟩
  · have harg : -((10 - itemL.last_reviewed_at.getD itemL.created_at) * 24) /
        (itemL.memory_strength * 24) = -10 := by
      norm_num [itemL]
    unfold sweep_retention
    rw [harg]
    exact exp_neg_ten_lt_tenth
  · simp [process_decay, dbL]

/-- Witness for `decay_sweep_spec`: an apply-mode sweep of a store holding
the matching item under `events` marks that row forgotten. -/
theorem decay_sweep_spec_witness :
    (process_decay
        { events := fun j => if j = 1 then some itemL else none
          lessons := fun _ => none
          review_log := [] } 10 false).events 1 =
      some { itemL with consolidation_state := ConsolidationState.forgotten } := by
  refine ((decay_sweep_spec
    { events := fun j => if j = 1 then some itemL else none
      lessons := fun _ => none
      review_log := [] } 10).2.2.2.1 1 itemL (by simp)).1 ?_
  refine ⟨by simp [itemL], by norm_num [itemL], ?_⟩
  have harg : -((10 - itemL.last_reviewed_at.getD itemL.created_at) * 24) /
      (itemL.memory_strength * 24) = -10 := by
    norm_num [itemL]
  unfold sweep_retention
  rw [harg]
  exact exp_neg_ten_lt_tenth

/-! ### Input rejection and the review log -/

/-- Claim C7 (amended): no write happens for an out-of-range quality (the
CLI parser rejects it), for a reference that does not split into exactly
two parts, for a non-integer id, or for an item id absent from the
targeted table; but a well-formed reference with an unknown table name is
not rejected — `review_item` routes it to the `lessons` table. -/
theorem review_command_rejections (db : DB) (ref : List Char) (q : ℤ)
    (now : ℝ) :
    ((q < 0 ∨ 5 < q) → run_review_command db ref q now = db)
    ∧ (∀ t istr : List Char, splitColon ref = [t, istr] →
        parseInt? istr = none → run_review_command db ref q now = db)
    ∧ ((splitColon ref).length ≠ 2 → run_review_command db ref q now = db)
    ∧ (∀ (t : String) (i : ℤ),
        (if t = "events" then db.events i else db.lessons i) = none →
        review_item db t i q now = db) := by
  refine ⟨fun h => ?_, fun t istr hsplit hint => ?_, fun hlen => ?_,
    fun t i h => review_item_notfound db t i q now h⟩
  · unfold run_review_command
    rw [if_pos h]
  · unfold run_review_command
    by_cases hq : q < 0 ∨ 5 < q
    · rw [if_pos hq]
    · rw [if_neg hq, hsplit]
      dsimp only
      rw [hint]
  · unfold run_review_command
    by_cases hq : q < 0 ∨ 5 < q
    · rw [if_pos hq]
    · rw [if_neg hq]
      rcases hsplit : splitColon ref with _ | ⟨a, _ | ⟨b, _ | ⟨c, rest⟩⟩⟩
      · rfl
      · rfl
      · exact absurd (by rw [hsplit]; rfl) hlen
      · rfl

/-- Claim C7 (counterexample): a reference with the unknown table name
"foo" is not rejected: `review_item` routes it to the `lessons` table,
finds the item there, updates it and appends a review-log row, so the
review-log entry count changes from 0 to 1. -/
theorem unknown_table_reference_writes :
    dbL.review_log.length = 0 ∧
    ((run_review_command dbL "foo:1".data 4 0).review_log).length = 1 := by
  refine ⟨rfl, ?_⟩
  have hsplit : splitColon "foo:1".data = ["foo".data, "1".data] := by decide
  have hint : parseInt? "1".data = some 1 := by decide
  unfold run_review_command
  rw [if_neg (by norm_num), hsplit]
  dsimp only
  rw [hint]
  have hit : (if String.mk "foo".data = "events" then dbL.events 1
      else dbL.lessons 1) = some itemL := by
    rw [if_neg (by decide)]
    simp [dbL]
  rw [review_item_log dbL (String.mk "foo".data) 1 4 0 itemL hit]
  simp [dbL]

/-- Witness for `review_command_rejections`: an out-of-range quality and a
reference without a colon both leave the store untouched. -/
theorem review_command_rejections_witness :
    run_review_command dbL "events:1".data 9 0 = dbL ∧
    run_review_command dbL "foo".data 4 0 = dbL := by
  constructor
  · exact (review_command_rejections dbL "events:1".data 9 0).1
      (Or.inr (by norm_num))
  · exact (review_command_rejections dbL "foo".data 4 0).2.2.1 (by decide)

/-- An item whose stored timestamp lies one hour in the future of the
review instant 0 (timestamps are in days, so 1/24 of a day ahead). -/
noncomputable def itemT : Item :=
  { memory_strength := 1
    repetition_count := 0
    last_reviewed_at := some (1 / 24)
    created_at := 1 / 24
    next_review_at := 0
    retention_estimate := 1
    importance := 0.5
    consolidation_state := ConsolidationState.active }

/-- A store holding `itemT` under `events` id 1, with an empty log. -/
noncomputable def dbT : DB :=
  { events := fun j => if j = 1 then some itemT else none
    lessons := fun _ => none
    review_log := [] }

/-- Claim C8 (counterexample): when the stored last-review time lies in
the future, `review_item` does not fail — it writes anyway, logging a
negative `time_since_last_review_hours` (here -1), and the retention
value it computes there exceeds 1. -/
theorem future_timestamp_still_writes :
    (review_item dbT "events" 1 4 0).review_log.map
      LogEntry.time_since_last_review_hours = [(-1 : ℝ)] ∧
    (review_item dbT "events" 1 4 0).review_log.map
      LogEntry.retention_before = [calculate_retention (-1) 1] ∧
    (1 : ℝ) < calculate_retention (-1) 1 := by
  have hit : (if ("events" : String) = "events" then dbT.events 1
      else dbT.lessons 1) = some itemT := by
    rw [if_pos rfl]
    simp [dbT]
  have hlog := review_item_log dbT "events" 1 4 0 itemT hit
  refine ⟨?_, ?_, ?_⟩
  · rw [hlog]
    simp [dbT, itemT]
  · rw [hlog]
    simp [dbT, itemT]
  · unfold calculate_retention
    rw [show -(-1 : ℝ) / (1 * 24) = 1 / 24 by norm_num]
    exact Real.one_lt_exp_iff.2 (by norm_num)

/-- Claim C8 (amended): `review_item` does not reject a future stored
timestamp; but whenever the stored last-review/creation time does not lie
in the future of the review instant (and strength is positive), the
appended log row has nonnegative elapsed hours and a retention_before in
[0, 1]. -/
theorem review_log_ranges (db : DB) (t : String) (i q : ℤ) (now : ℝ)
    (item : Item)
    (hit : (if t = "events" then db.events i else db.lessons i) = some item)
    (hs : 0 < item.memory_strength)
    (hts : item.last_reviewed_at.getD item.created_at ≤ now) :
    ∃ entry, (review_item db t i q now).review_log
        = db.review_log ++ [entry] ∧
      0 ≤ entry.time_since_last_review_hours ∧
      0 ≤ entry.retention_before ∧ entry.retention_before ≤ 1 := by
  refine ⟨_, review_item_log db t i q now item hit, ?_, ?_, ?_⟩
  · show (0 : ℝ) ≤ (now - item.last_reviewed_at.getD item.created_at) * 24
    nlinarith
  · exact (retention_pos _ _).le
  · exact retention_le_one _ _ (by nlinarith) hs

/-- Witness for `review_log_ranges`: the store `db24` reviewed at time 1. -/
theorem review_log_ranges_witness :
    ∃ entry, (review_item db24 "events" 1 4 1).review_log
        = db24.review_log ++ [entry] ∧
      0 ≤ entry.time_since_last_review_hours ∧
      0 ≤ entry.retention_before ∧ entry.retention_before ≤ 1 :=
  review_log_ranges db24 "events" 1 4 1 item24 (by simp [db24])
    (by norm_num [item24]) (by norm_num [item24])

end HexMem
